import Mathlib

/-!
Verification development for `whoishistory.py` (pywhoishistory).

The Python source is shallowly embedded below: the normalizer
(`_clean_parsed_data`), DNS injection (`_inject_dns_lookups` /
`_inject_dns_placeholder`), the diff-and-store engine (`_store_state`),
the per-domain check driver (`check_domain`), and the purge operation
(`purge_domain`) become pure Lean functions over an explicit `Store`
value standing for the MySQL database.  Python values that can be a
string, a datetime or NULL become the `Value` inductive; timestamps
become `PyDateTime`; the fallible paths (`sys.exit`, uncaught exceptions)
become `Option`.
-/

namespace WhoisHistory

/-- Model of a Python `datetime.datetime` value: civil fields plus an optional
UTC offset in minutes (`none` models `tzinfo is None`, i.e. a naive value). -/
structure PyDateTime where
  year : Nat
  month : Nat
  day : Nat
  hour : Nat
  minute : Nat
  second : Nat
  microsecond : Nat
  tzOffsetMinutes : Option Int
deriving DecidableEq

/-- Embedding of the per-`datetime` cleanup in `_clean_parsed_data`
(whoishistory.py lines 551-564): a naive value only has its microseconds
cleared (`date.replace(microsecond=0)`); an aware value is rebuilt as
`datetime.datetime(date.year, ..., date.second)`, which copies the civil
fields verbatim, zeroes microseconds and drops the tzinfo. -/
def cleanDatetime (d : PyDateTime) : PyDateTime :=
  match d.tzOffsetMinutes with
  | none => { d with microsecond := 0 }
  | some _ =>
      { year := d.year, month := d.month, day := d.day,
        hour := d.hour, minute := d.minute, second := d.second,
        microsecond := 0, tzOffsetMinutes := none }

/-- Lexicographic strict comparison of equal-length `Nat` sequences, used both
for naive-`datetime` comparison and (through code points) for Python string
comparison. -/
def lexNatLt : List Nat → List Nat → Bool
  | [], [] => false
  | [], _ :: _ => true
  | _ :: _, [] => false
  | a :: as, b :: bs =>
      if a < b then true
      else if b < a then false
      else lexNatLt as bs

/-- Field tuple a naive Python `datetime` compares by. -/
def dtFields (d : PyDateTime) : List Nat :=
  [d.year, d.month, d.day, d.hour, d.minute, d.second, d.microsecond]

/-- Comparison of the naive `datetime` values produced by `cleanDatetime`
(Python compares naive datetimes by their field tuples). -/
def dtLt (a b : PyDateTime) : Bool :=
  lexNatLt (dtFields a) (dtFields b)

/-- One step of Python `max`: replace the candidate when the next element
compares strictly greater. -/
def maxStep (acc y : PyDateTime) : PyDateTime :=
  if dtLt acc y then y else acc

/-- One step of Python `min`: replace the candidate when the next element
compares strictly smaller. -/
def minStep (acc y : PyDateTime) : PyDateTime :=
  if dtLt y acc then y else acc

/-- Embedding of Python `max(list)`: keeps the first element and replaces it
whenever a later element compares strictly greater; `none` models the
`ValueError` that `max` raises on an empty list. -/
def pyMax : List PyDateTime → Option PyDateTime
  | [] => none
  | x :: xs => some (xs.foldl maxStep x)

/-- Embedding of Python `min(list)`, mirroring `pyMax`. -/
def pyMin : List PyDateTime → Option PyDateTime
  | [] => none
  | x :: xs => some (xs.foldl minStep x)

/-- ASCII decimal digit test, modelling `\d` of the `date_t_re` pattern. -/
def isDigitChar (c : Char) : Bool :=
  '0' ≤ c && c ≤ '9'

/-- Splits off the maximal leading run of digits (a greedy `\d+`). -/
def takeDigits : List Char → List Char × List Char
  | [] => ([], [])
  | c :: cs =>
      if isDigitChar c then
        let p := takeDigits cs
        (c :: p.1, p.2)
      else ([], c :: cs)

/-- Value of a digit string, modelling Python `int()` on a `\d+` group. -/
def digitsToNat (ds : List Char) : Nat :=
  ds.foldl (fun acc c => acc * 10 + (c.toNat - '0'.toNat)) 0

/-- Matches `\d+` and returns its integer value and the rest of the input. -/
def parseNum (cs : List Char) : Option (Nat × List Char) :=
  match takeDigits cs with
  | ([], _) => none
  | (ds, rest) => some (digitsToNat ds, rest)

/-- Matches one literal character. -/
def expectChar (c : Char) : List Char → Option (List Char)
  | [] => none
  | x :: xs => if x = c then some xs else none

/-- Python's `$` anchor (without `re.MULTILINE`): matches at the end of the
string, or just before a newline at the end of the string. -/
def endAnchor : List Char → Bool
  | [] => true
  | [c] => c == '\n'
  | _ => false

/-- Embedding of `date_t_re` = `^(?P<year>\d+)-(?P<month>\d+)-(?P<day>\d+)T`
`(?P<hour>\d+):(?P<min>\d+):(?P<sec>\d+)$` together with the
`datetime.datetime(...)` construction on its groups (lines 567-576).
Each `\d+` is greedy and is followed by a non-digit literal, so the
backtracking-free greedy scan below matches the regex exactly.  (Range
validation done by the `datetime` constructor is not modelled.) -/
def parseDateT (s : String) : Option PyDateTime := do
  let (y, r) ← parseNum s.data
  let r ← expectChar '-' r
  let (mo, r) ← parseNum r
  let r ← expectChar '-' r
  let (dy, r) ← parseNum r
  let r ← expectChar 'T' r
  let (h, r) ← parseNum r
  let r ← expectChar ':' r
  let (mi, r) ← parseNum r
  let r ← expectChar ':' r
  let (se, r) ← parseNum r
  if endAnchor r then
    some ⟨y, mo, dy, h, mi, se, 0, none⟩
  else none

/-- Shape of one raw date entry handed over by python-whois: either an
already-parsed `datetime.datetime` or a string. -/
inductive RawDate where
  | dt (d : PyDateTime)
  | str (s : String)
deriving DecidableEq

/-- Cleanup of a single date entry (lines 550-579): datetimes go through
`cleanDatetime`; strings must match `date_t_re`, otherwise the app prints
`ERROR: Unknown date format` and exits (modelled as `none`). -/
def cleanDateValue : RawDate → Option PyDateTime
  | .dt d => some (cleanDatetime d)
  | .str s => parseDateT s

/-- Raw shape of one of the three date fields: a scalar or a list. -/
inductive DateField where
  | scalar (v : RawDate)
  | list (vs : List RawDate)
deriving DecidableEq

/-- The `new_dates` accumulation loop (lines 549-579): clean every entry in
order, aborting on the first bad one. -/
def cleanDates : List RawDate → Option (List PyDateTime)
  | [] => some []
  | v :: vs =>
      match cleanDateValue v with
      | none => none
      | some d =>
          match cleanDates vs with
          | none => none
          | some ds => some (d :: ds)

/-- Embedding of the date-field loop body in `_clean_parsed_data`
(lines 540-580): wrap a scalar into a one-element list, clean every entry
(aborting on the first bad one), then reduce with the per-field reducer
(`max` for `updated_date`, `min` for `creation_date`/`expiration_date`). -/
def cleanDateField (red : List PyDateTime → Option PyDateTime) (v : DateField) :
    Option PyDateTime :=
  let dates :=
    match v with
    | .list vs => vs
    | .scalar x => [x]
  match cleanDates dates with
  | none => none
  | some cleaned => red cleaned

/-- Code-point sequence of a string; Python compares strings lexicographically
by code point. -/
def strKey (s : String) : List Nat :=
  s.data.map Char.toNat

/-- Python's `<` on strings. -/
def strLtB (a b : String) : Bool :=
  lexNatLt (strKey a) (strKey b)

/-- Python's `<=` on strings, as the ordering used by `sorted()`. -/
def pyLe (a b : String) : Prop :=
  strLtB b a = false

instance : DecidableRel pyLe := fun a b => by
  unfold pyLe
  infer_instance

/-- Embedding of Python `sorted()` on a list of strings.  Python's sort is a
stable sort by `<=`; since `pyLe` is a total antisymmetric order, any sorted
rearrangement is uniquely determined, and insertion sort computes it. -/
def pySorted (xs : List String) : List String :=
  xs.insertionSort pyLe

/-- Embedding of Python `sorted(set(xs))`: the ascending enumeration of the
distinct elements of `xs`. -/
def pySortedSet (xs : List String) : List String :=
  pySorted xs.dedup

/-- Character sequence of `', '.join(xs)`. -/
def joinChars : List String → List Char
  | [] => []
  | [s] => s.data
  | s :: t :: rest => s.data ++ ',' :: ' ' :: joinChars (t :: rest)

/-- Embedding of Python `', '.join(xs)`. -/
def commaJoin (xs : List String) : String :=
  String.mk (joinChars xs)

/-- ASCII lower-casing of one character, modelling `str.lower()` on the ASCII
hostnames involved. -/
def toLowerChar (c : Char) : Char :=
  if 'A' ≤ c && c ≤ 'Z' then Char.ofNat (c.toNat + 32) else c

/-- Embedding of Python `s.lower()`. -/
def lowerStr (s : String) : String :=
  String.mk (s.data.map toLowerChar)

/-- Embedding of the `name_servers` cleanup (lines 583-586): lower-case every
entry, deduplicate as a set, join the sorted result with `', '`. -/
def cleanNameServers (nss : List String) : String :=
  commaJoin (pySortedSet (nss.map lowerStr))

/-- Python regex `\s` on ASCII input: space, tab, newline, carriage return,
vertical tab, form feed. -/
def isPyWhitespace (c : Char) : Bool :=
  c == ' ' || c == '\t' || c == '\n' || c == '\r' || c == '\x0b' || c == '\x0c'

/-- Matches `\)?$`: an optional closing parenthesis, then the end anchor. -/
def closeParenEnd (cs : List Char) : Bool :=
  endAnchor cs ||
    (match cs with
     | ')' :: rest => endAnchor rest
     | _ => false)

/-- Decides whether `\S+?\)?$` can match `cs` (laziness of `\S+?` affects only
which alternative is captured, not matchability). -/
def nonSpacePlusEnd : List Char → Bool
  | [] => false
  | c :: cs => !(isPyWhitespace c) && (closeParenEnd cs || nonSpacePlusEnd cs)

/-- Matches the literal `http` followed by `\S+?\)?$`. -/
def httpPart (cs : List Char) : Bool :=
  match cs with
  | 'h' :: 't' :: 't' :: 'p' :: rest => nonSpacePlusEnd rest
  | _ => false

/-- Matches `\(?http\S+?\)?$`: the `http...` part with an optional leading
parenthesis. -/
def urlPart (cs : List Char) : Bool :=
  httpPart cs ||
    (match cs with
     | '(' :: rest => httpPart rest
     | _ => false)

/-- Decides whether `( \(?(?P<url>http\S+?)\)?)?$` matches `cs`: either the
whole group is skipped and the end anchor matches, or a space is consumed and
the URL part matches. -/
def statusTail (cs : List Char) : Bool :=
  endAnchor cs ||
    (match cs with
     | ' ' :: rest => urlPart rest
     | _ => false)

/-- Lazy matching of `status_url_re` = `^(?P<status>.*?)( \(?(?P<url>`
`http\S+?)\)?)?$` (line 115): the `status` group takes the shortest prefix of
non-newline characters after which the remainder of the pattern matches;
`none` models an overall match failure. -/
def statusCapture : List Char → Option (List Char)
  | [] => if statusTail [] then some [] else none
  | c :: rest =>
      if statusTail (c :: rest) then some []
      else if c = '\n' then none
      else (statusCapture rest).map (c :: ·)

/-- Embedding of the per-token status cleanup (lines 597-601): on a regex
match keep `match.group('status')`, otherwise fall back to adding the raw
status token. -/
def cleanStatusToken (s : String) : String :=
  match statusCapture s.data with
  | some g => String.mk g
  | none => s

/-- Raw shape of the `status` field: a scalar string or a list of strings. -/
inductive StatusVal where
  | scalar (s : String)
  | list (xs : List String)
deriving DecidableEq

/-- Embedding of the `status` cleanup (lines 591-602): wrap a scalar into a
one-element list, strip every token's URL suffix, collect the results into a
set and join the sorted set with `', '`. -/
def cleanStatus (v : StatusVal) : String :=
  let statuses :=
    match v with
    | .list xs => xs
    | .scalar s => [s]
  commaJoin (pySortedSet (statuses.map cleanStatusToken))

/-- Model of a cleaned field value as stored in and read back from the
database: SQL NULL, a string, or a datetime. -/
inductive Value where
  | none
  | str (s : String)
  | dt (d : PyDateTime)
deriving DecidableEq

/-- Raw shape of the `emails` field: a list of strings, or a scalar that is
passed through as-is (possibly NULL). -/
inductive EmailsVal where
  | scalar (v : Value)
  | list (xs : List String)
deriving DecidableEq

/-- Embedding of the `emails` cleanup (lines 604-606): a list becomes
`', '.join(sorted(list))` — note the source sorts the list directly, without
a set — while a scalar is left unchanged. -/
def cleanEmails : EmailsVal → Value
  | .list xs => .str (commaJoin (pySorted xs))
  | .scalar v => v

/-- Raw structured fields of a python-whois parse, as consumed by
`_clean_parsed_data`: the three date fields have scalar-or-list date shape,
`name_servers` is iterated as a list, `status` and `emails` are
scalar-or-list, and the remaining ten tracked fields are passed through. -/
structure ParsedData where
  registrar : Value
  whois_server : Value
  referral_url : Value
  updated_date : DateField
  creation_date : DateField
  expiration_date : DateField
  name_servers : List String
  status : StatusVal
  emails : EmailsVal
  dnssec : Value
  name : Value
  org : Value
  address : Value
  city : Value
  state : Value
  zipcode : Value
deriving DecidableEq

/-- Cleaned record before DNS injection: `parsed_data` after
`_clean_parsed_data`, which still lacks the `ip`/`mx` keys. -/
structure PreRecord where
  registrar : Value
  whois_server : Value
  referral_url : Value
  updated_date : Value
  creation_date : Value
  expiration_date : Value
  name_servers : Value
  status : Value
  emails : Value
  dnssec : Value
  name : Value
  org : Value
  address : Value
  city : Value
  state : Value
  zipcode : Value
deriving DecidableEq

/-- Embedding of `_clean_parsed_data` (lines 522-606): reduce the three date
fields (exiting on an unparseable date), canonicalize `name_servers`,
`status` and `emails`, and pass the other fields through unchanged. -/
def cleanParsed (p : ParsedData) : Option PreRecord := do
  let ud ← cleanDateField pyMax p.updated_date
  let cd ← cleanDateField pyMin p.creation_date
  let ed ← cleanDateField pyMin p.expiration_date
  pure
    { registrar := p.registrar
      whois_server := p.whois_server
      referral_url := p.referral_url
      updated_date := .dt ud
      creation_date := .dt cd
      expiration_date := .dt ed
      name_servers := .str (cleanNameServers p.name_servers)
      status := .str (cleanStatus p.status)
      emails := cleanEmails p.emails
      dnssec := p.dnssec
      name := p.name
      org := p.org
      address := p.address
      city := p.city
      state := p.state
      zipcode := p.zipcode }

/-- Embedding of `exch[:-1]`-on-trailing-dot in `_inject_dns_lookups`
(lines 637-638). -/
def stripTrailingDot (s : String) : String :=
  match s.data.getLast? with
  | some '.' => String.mk s.data.dropLast
  | _ => s

/-- One MX answer rendered as `f'{preference}/{exchange}'` with any trailing
dot removed from the exchange (lines 636-639). -/
def mxToken (preference : Nat) (exchange : String) : String :=
  Nat.repr preference ++ "/" ++ stripTrailingDot exchange

/-- Canonical `ip` value (lines 616-629): the A and AAAA answers collected
into one set, joined sorted with `', '` (`NoAnswer` contributes an empty
list). -/
def ipJoin (answersA answersAAAA : List String) : String :=
  commaJoin (pySortedSet (answersA ++ answersAAAA))

/-- Canonical `mx` value (lines 632-642): the rendered MX tokens collected
into a set, joined sorted with `', '`. -/
def mxJoin (answersMX : List (Nat × String)) : String :=
  commaJoin (pySortedSet (answersMX.map (fun a => mxToken a.1 a.2)))

/-- Successful resolver answers for one domain (a raised `NoAnswer` is
modelled as the empty list for that record type). -/
structure DnsAnswers where
  a : List String
  aaaa : List String
  mx : List (Nat × String)
deriving DecidableEq

/-- Sentinel stored in `ip`/`mx` when DNS lookups are skipped (lines
649-650). -/
def lookupsDisabled : String := "(lookups disabled)"

/-- Canonical record: `parsed_data` as consumed by `_store_state`, i.e. a
`PreRecord` completed with `ip` and `mx`. -/
structure CanonicalRecord where
  registrar : Value
  whois_server : Value
  referral_url : Value
  updated_date : Value
  creation_date : Value
  expiration_date : Value
  name_servers : Value
  status : Value
  emails : Value
  dnssec : Value
  name : Value
  org : Value
  address : Value
  city : Value
  state : Value
  zipcode : Value
  ip : Value
  mx : Value
deriving DecidableEq

/-- Completion of a `PreRecord` with given `ip` and `mx` values. -/
def PreRecord.withDns (r : PreRecord) (ipVal mxVal : Value) : CanonicalRecord :=
  { registrar := r.registrar
    whois_server := r.whois_server
    referral_url := r.referral_url
    updated_date := r.updated_date
    creation_date := r.creation_date
    expiration_date := r.expiration_date
    name_servers := r.name_servers
    status := r.status
    emails := r.emails
    dnssec := r.dnssec
    name := r.name
    org := r.org
    address := r.address
    city := r.city
    state := r.state
    zipcode := r.zipcode
    ip := ipVal
    mx := mxVal }

/-- Embedding of `_inject_dns_lookups` (lines 608-642). -/
def injectDnsLookups (dns : DnsAnswers) (r : PreRecord) : CanonicalRecord :=
  r.withDns (.str (ipJoin dns.a dns.aaaa)) (.str (mxJoin dns.mx))

/-- Embedding of `_inject_dns_placeholder` (lines 644-650). -/
def injectDnsPlaceholder (r : PreRecord) : CanonicalRecord :=
  r.withDns (.str lookupsDisabled) (.str lookupsDisabled)

/-- Keys of the eighteen tracked datapoints. -/
inductive Field where
  | registrar
  | whois_server
  | referral_url
  | updated_date
  | creation_date
  | expiration_date
  | name_servers
  | status
  | emails
  | dnssec
  | name
  | org
  | address
  | city
  | state
  | zipcode
  | ip
  | mx
deriving DecidableEq

/-- The `datapoints` table of the app (lines 89-108), in its declared
iteration order: each tracked field with its English label. -/
def datapoints : List (Field × String) :=
  [ (.registrar, "Registrar"),
    (.whois_server, "WHOIS Server"),
    (.referral_url, "Referral URL"),
    (.updated_date, "Updated Date"),
    (.creation_date, "Creation Date"),
    (.expiration_date, "Expiration Date"),
    (.name_servers, "Nameservers"),
    (.status, "Status"),
    (.emails, "Emails"),
    (.dnssec, "DNSSEC"),
    (.name, "Registrant Name"),
    (.org, "Registrant Organization"),
    (.address, "Registrant Address"),
    (.city, "Registrant City"),
    (.state, "Registrant State"),
    (.zipcode, "Registrant Zipcode"),
    (.ip, "IP Address"),
    (.mx, "MX Addresses") ]

/-- Field lookup on a canonical record (`parsed_data[key]` /
`prev_state[key]`). -/
def CanonicalRecord.get (r : CanonicalRecord) : Field → Value
  | .registrar => r.registrar
  | .whois_server => r.whois_server
  | .referral_url => r.referral_url
  | .updated_date => r.updated_date
  | .creation_date => r.creation_date
  | .expiration_date => r.expiration_date
  | .name_servers => r.name_servers
  | .status => r.status
  | .emails => r.emails
  | .dnssec => r.dnssec
  | .name => r.name
  | .org => r.org
  | .address => r.address
  | .city => r.city
  | .state => r.state
  | .zipcode => r.zipcode
  | .ip => r.ip
  | .mx => r.mx

/-- Embedding of the comparison loop of `_store_state` (lines 689-695): walk
`datapoints` in declared order and collect `(label, old, new)` for every
mismatching field. -/
def diffRecord (prev cur : CanonicalRecord) : List (String × Value × Value) :=
  datapoints.filterMap fun fe =>
    if prev.get fe.1 ≠ cur.get fe.1 then some (fe.2, prev.get fe.1, cur.get fe.1)
    else none

/-- Row of the `domain` table. -/
structure DomainRow where
  last_state : Option Nat
  active_checks : Bool
  do_dns : Bool
  last_checked : Option Nat
  cur_raw_text : Option String
deriving DecidableEq

/-- Row of the `state` table. -/
structure StateRow where
  id : Nat
  domain : String
  check_time : Nat
  raw_text : String
  record : CanonicalRecord
deriving DecidableEq

/-- Row of the `changed` table. -/
structure ChangedRow where
  id : Nat
  state : Nat
  info : String
  val_from : Value
  val_to : Value
deriving DecidableEq

/-- The database: `domain` keyed by domain name, `state` and `changed` as
append-ordered row lists, plus the auto-increment counters. -/
structure Store where
  domains : String → Option DomainRow
  states : List StateRow
  changed : List ChangedRow
  nextStateId : Nat
  nextChangedId : Nat

/-- SQL `update domain set ... where domain=%s`: rewrites the row if it
exists, does nothing otherwise. -/
def Store.updateDomain (st : Store) (d : String) (f : DomainRow → DomainRow) :
    Store :=
  { st with
    domains := fun x => if x = d then (st.domains x).map f else st.domains x }

/-- SQL `select * from state where id=%s`. -/
def findState (st : Store) (sid : Nat) : Option StateRow :=
  st.states.find? (fun s => s.id == sid)

/-- The `changed`-insertion loop of `_store_state` (lines 761-765), one row
per difference, in the order the differences were found. -/
def insertChangedRows (st : Store) (stateId : Nat) :
    List (String × Value × Value) → Store
  | [] => st
  | d :: rest =>
      insertChangedRows
        { st with
          changed := st.changed ++ [⟨st.nextChangedId, stateId, d.1, d.2.1, d.2.2⟩],
          nextChangedId := st.nextChangedId + 1 }
        stateId rest

/-- Write phase of `_store_state` (lines 701-768): unconditionally update
`cur_raw_text`/`last_checked`/`do_dns` on the domain row; then, only when a
store was decided, insert the new `state` row, repoint `domain.last_state`
at it, and insert one `changed` row per difference. -/
def commitState (st : Store) (domain checkData : String) (parsed : CanonicalRecord)
    (doDns : Bool) (now : Nat) (storeFlag : Bool)
    (differences : List (String × Value × Value)) : Store :=
  let st1 := st.updateDomain domain fun r =>
    { r with cur_raw_text := some checkData, last_checked := some now, do_dns := doDns }
  if storeFlag then
    let sid := st1.nextStateId
    let st2 := { st1 with
      states := st1.states ++
        [({ id := sid, domain := domain, check_time := now,
            raw_text := checkData, record := parsed } : StateRow)],
      nextStateId := sid + 1 }
    let st3 := st2.updateDomain domain fun r => { r with last_state := some sid }
    insertChangedRows st3 sid differences
  else st1

/-- Embedding of `_store_state` (lines 652-778).  The previous state is the
one `domain.last_state` points at; with no domain row or a NULL pointer the
new state is always stored with no differences recorded (initial
observation).  `none` models the crash the source would hit if
`last_state` pointed at a missing `state` row (referential integrity makes
that unreachable in the real database).  Returns the updated store and
whether a new state was stored. -/
def storeState (st : Store) (domain checkData : String) (parsed : CanonicalRecord)
    (doDns : Bool) (now : Nat) : Option (Store × Bool) :=
  match (st.domains domain).bind (fun r => r.last_state) with
  | some sid =>
      match findState st sid with
      | none => none
      | some prev =>
          let differences := diffRecord prev.record parsed
          let flag := !differences.isEmpty
          some (commitState st domain checkData parsed doDns now flag differences, flag)
  | none =>
      some (commitState st domain checkData parsed doDns now true [], true)

/-- The `--dns`/`--no-dns` policy override (the `DNSBehavior` enum,
lines 45-48). -/
inductive DNSBehavior where
  | domain_default
  | force_yes
  | force_no
deriving DecidableEq

/-- Whether `needle` occurs at the start of `hay`. -/
def startsWithSeq : List Char → List Char → Bool
  | _, [] => true
  | [], _ :: _ => false
  | a :: as, b :: bs => a == b && startsWithSeq as bs

/-- Whether `needle` occurs contiguously anywhere in `hay` (Python's
`needle in hay` on strings). -/
def hasSubSeq (hay needle : List Char) : Bool :=
  match hay with
  | [] => startsWithSeq [] needle
  | c :: t => startsWithSeq (c :: t) needle || hasSubSeq t needle

/-- The transient-communication test `'Socket not responding' in check_data`
(lines 499 and 505). -/
def containsSentinel (s : String) : Bool :=
  hasSubSeq s.data "Socket not responding".data

/-- Embedding of the whois retry loop (lines 495-504), with `responses i` the
raw text returned by the `i`-th lookup: on a non-final attempt a sentinel
response triggers a retry, the final attempt's response is kept as-is.
`none` arises only for `max_retries = 0`, where the loop never runs and the
source then crashes testing `in` against `None`. -/
def whoisAttempts (responses : Nat → String) : Nat → Nat → Option String
  | _, 0 => none
  | i, 1 => some (responses i)
  | i, r + 2 =>
      let data := responses i
      if containsSentinel data then whoisAttempts responses (i + 1) (r + 1)
      else some data

/-- Domain row inserted for a previously unknown domain (lines 462-475):
`active_checks` defaults to 1, `do_dns` is 0 only under `--no-dns`, and
`last_state`/`last_checked`/`cur_raw_text` start out NULL. -/
def newDomainRow (dnsBehavior : DNSBehavior) : DomainRow :=
  { last_state := none, active_checks := true,
    do_dns := (match dnsBehavior with
      | .force_no => false
      | _ => true),
    last_checked := none, cur_raw_text := none }

/-- External collaborators of one check: the whois transport (per-attempt raw
responses and the python-whois parser) and the DNS resolver answers, plus
the clock value used for `now()`. -/
structure CheckEnv where
  responses : Nat → String
  parse : String → ParsedData
  dns : DnsAnswers
  now : Nat

/-- Embedding of `check_domain` (lines 444-520): insert the domain row if
absent (honouring `--no-dns` for the initial `do_dns` flag), resolve the
effective `do_dns` for this run, fetch the raw whois text (retry loop, or
the canned `check_data` argument), abort with `True` on a final
transient-communication sentinel, otherwise parse, clean, inject DNS data
or the placeholder, and store.  `none` models the fatal paths (unparseable
date, empty date list, dangling `last_state`, `max_retries = 0`). -/
def checkDomain (st : Store) (dnsBehavior : DNSBehavior) (maxRetries : Nat)
    (env : CheckEnv) (domain : String) (checkDataArg : Option String) :
    Option (Store × Bool) := do
  let inserted :=
    match st.domains domain with
    | none =>
        ({ st with
            domains := fun x =>
              if x = domain then some (newDomainRow dnsBehavior)
              else st.domains x },
         (newDomainRow dnsBehavior).do_dns)
    | some row =>
        match dnsBehavior with
        | .force_yes => (st, true)
        | .force_no => (st, false)
        | .domain_default => (st, row.do_dns)
  let st1 := inserted.1
  let doDns := inserted.2
  let checkData ←
    match checkDataArg with
    | some cd => some cd
    | none => whoisAttempts env.responses 0 maxRetries
  if containsSentinel checkData then
    some (st1, true)
  else do
    let pre ← cleanParsed (env.parse checkData)
    let record :=
      if doDns then injectDnsLookups env.dns pre else injectDnsPlaceholder pre
    storeState st1 domain checkData record doDns env.now

/-- Embedding of `_get_state_ids` (lines 822-837): the `(id, check_time)`
pairs of the domain's states, oldest first. -/
def getStateIds (st : Store) (domain : String) : List (Nat × Nat) :=
  ((st.states.filter (fun s => s.domain == domain)).map
      (fun s => (s.id, s.check_time))).insertionSort
    (fun a b => a.2 ≤ b.2)

/-- Embedding of `purge_domain` (lines 839-890): unknown domains are reported
and the app exits (`none`); otherwise delete the `changed` rows of the
domain's states, null out `domain.last_state`, delete the domain's `state`
rows, and delete the `domain` row, all committed together.  (The source
skips the two `delete ... in (...)` statements when the id list is empty;
filtering by the empty list deletes nothing, so that guard is dropped.) -/
def purgeDomain (st : Store) (domain : String) : Option Store :=
  match st.domains domain with
  | none => none
  | some _ =>
      let stateIds := (getStateIds st domain).map (fun p => p.1)
      let st1 := { st with
        changed := st.changed.filter (fun c => !(decide (c.state ∈ stateIds))) }
      let st2 := st1.updateDomain domain fun r => { r with last_state := none }
      let st3 := { st2 with
        states := st2.states.filter (fun s => !(decide (s.id ∈ stateIds))) }
      some { st3 with
        domains := fun x => if x = domain then none else st3.domains x }

/-- Number of days from 0001-01-01 to the given proleptic-Gregorian civil
date (valid for `year ≥ 1`), used to give civil timestamps an absolute
reading. -/
def daysFromCivil (y m d : Nat) : Nat :=
  let yAdj := if m ≤ 2 then y - 1 else y
  let mShift := if m ≤ 2 then m + 9 else m - 3
  let doy := (153 * mShift + 2) / 5 + (d - 1)
  365 * yAdj + yAdj / 4 - yAdj / 100 + yAdj / 400 + doy

/-- Spec-side notion of the absolute instant a timestamp denotes, in seconds:
the civil fields read on the absolute day/second timeline, minus the UTC
offset; a naive value is read as already UTC, as the spec prescribes. -/
def instantSeconds (d : PyDateTime) : Int :=
  (daysFromCivil d.year d.month d.day : Int) * 86400 +
    d.hour * 3600 + d.minute * 60 + d.second - 60 * (d.tzOffsetMinutes.getD 0)

/-- Content of a `changed` row without its auto-increment id. -/
def changedProj (c : ChangedRow) : String × Value × Value :=
  (c.info, c.val_from, c.val_to)

/-- Concrete canonical record used by the witness instances below. -/
def recA : CanonicalRecord :=
  { registrar := .str "Example Registrar", whois_server := .none,
    referral_url := .none,
    updated_date := .dt ⟨2021, 3, 4, 5, 6, 7, 0, none⟩,
    creation_date := .dt ⟨1999, 1, 2, 3, 4, 5, 0, none⟩,
    expiration_date := .dt ⟨2030, 1, 2, 3, 4, 5, 0, none⟩,
    name_servers := .str "ns1.example.com, ns2.example.com",
    status := .str "ok", emails := .str "hostmaster@example.com",
    dnssec := .str "unsigned", name := .none, org := .none, address := .none,
    city := .none, state := .none, zipcode := .none,
    ip := .str "1.2.3.4", mx := .str "10/mail.example.com" }

/-- `recA` with a different registrar. -/
def recB : CanonicalRecord :=
  { recA with registrar := .str "Other Registrar" }

/-- `recA` as recorded after a DNS-disabled check. -/
def recDisabled : CanonicalRecord :=
  { recA with ip := .str lookupsDisabled, mx := .str lookupsDisabled }

/-- Concrete `state` row used by the witness instances. -/
def stateExample : StateRow :=
  { id := 1, domain := "example.com", check_time := 5,
    raw_text := "old raw", record := recA }

/-- Concrete `domain` row used by the witness instances. -/
def rowExample : DomainRow :=
  { last_state := some 1, active_checks := true, do_dns := true,
    last_checked := some 5, cur_raw_text := some "old raw" }

/-- One-domain store used by the witness instances. -/
def stExample : Store :=
  { domains := fun x => if x = "example.com" then some rowExample else none,
    states := [stateExample],
    changed := [{ id := 1, state := 1, info := "Registrar",
                  val_from := .none, val_to := .str "Example Registrar" }],
    nextStateId := 2, nextChangedId := 2 }

/-- Empty store used by the witness instances. -/
def stEmpty : Store :=
  { domains := fun _ => none, states := [], changed := [],
    nextStateId := 1, nextChangedId := 1 }

/-- Arbitrary parsed data for check environments whose parse step is never
reached. -/
def pdJunk : ParsedData :=
  { registrar := .none, whois_server := .none, referral_url := .none,
    updated_date := .scalar (.dt ⟨2020, 1, 1, 0, 0, 0, 0, none⟩),
    creation_date := .scalar (.dt ⟨2020, 1, 1, 0, 0, 0, 0, none⟩),
    expiration_date := .scalar (.dt ⟨2020, 1, 1, 0, 0, 0, 0, none⟩),
    name_servers := [], status := .scalar "", emails := .scalar .none,
    dnssec := .none, name := .none, org := .none, address := .none,
    city := .none, state := .none, zipcode := .none }

/-- Check environment whose whois transport always reports the transient
communication sentinel. -/
def envFail : CheckEnv :=
  { responses := fun _ => "Socket not responding after 10 seconds",
    parse := fun _ => pdJunk, dns := ⟨[], [], []⟩, now := 7 }

/-- Concrete pre-DNS record used by the witness instances. -/
def preExample : PreRecord :=
  { registrar := .str "Example Registrar", whois_server := .none,
    referral_url := .none,
    updated_date := .dt ⟨2021, 3, 4, 5, 6, 7, 0, none⟩,
    creation_date := .dt ⟨1999, 1, 2, 3, 4, 5, 0, none⟩,
    expiration_date := .dt ⟨2030, 1, 2, 3, 4, 5, 0, none⟩,
    name_servers := .str "ns1.example.com, ns2.example.com",
    status := .str "ok", emails := .str "hostmaster@example.com",
    dnssec := .str "unsigned", name := .none, org := .none, address := .none,
    city := .none, state := .none, zipcode := .none }

/-- Concrete resolver answers used by the witness instances. -/
def dnsExample : DnsAnswers :=
  { a := ["1.2.3.4"], aaaa := [], mx := [(10, "mail.example.com.")] }

/-! Order-theoretic facts about the lexicographic comparisons. -/

theorem lexNatLt_irrefl (xs : List Nat) : lexNatLt xs xs = false := by
  induction xs with
  | nil => rfl
  | cons a as ih => simp [lexNatLt, ih]

theorem lexNatLt_trans : ∀ {xs ys zs : List Nat}, lexNatLt xs ys = true →
    lexNatLt ys zs = true → lexNatLt xs zs = true := by
  intro xs
  induction xs with
  | nil =>
    intro ys zs h1 h2
    cases ys with
    | nil => simp [lexNatLt] at h1
    | cons b bs =>
      cases zs with
      | nil => simp [lexNatLt] at h2
      | cons c cs => simp [lexNatLt]
  | cons a as ih =>
    intro ys zs h1 h2
    cases ys with
    | nil => simp [lexNatLt] at h1
    | cons b bs =>
      cases zs with
      | nil => simp [lexNatLt] at h2
      | cons c cs =>
        simp only [lexNatLt] at h1 h2 ⊢
        split_ifs at h1 h2 ⊢ <;>
          first
          | rfl
          | exact ih h1 h2
          | exact absurd h1 (by decide)
          | exact absurd h2 (by decide)
          | (exfalso; omega)

theorem lexNatLt_eq_of_not : ∀ {xs ys : List Nat}, lexNatLt xs ys = false →
    lexNatLt ys xs = false → xs = ys := by
  intro xs
  induction xs with
  | nil =>
    intro ys h1 _
    cases ys with
    | nil => rfl
    | cons b bs => simp [lexNatLt] at h1
  | cons a as ih =>
    intro ys h1 h2
    cases ys with
    | nil => simp [lexNatLt] at h2
    | cons b bs =>
      simp only [lexNatLt] at h1 h2
      split_ifs at h1 h2 <;>
        first
        | exact absurd h1 (by decide)
        | exact absurd h2 (by decide)
        | (exfalso; omega)
        | (have hab : a = b := by omega
           rw [hab, ih h1 h2])

theorem lexNatLt_asymm {xs ys : List Nat} (h : lexNatLt xs ys = true) :
    lexNatLt ys xs = false := by
  cases h2 : lexNatLt ys xs with
  | false => rfl
  | true =>
    have h3 := lexNatLt_trans h h2
    rw [lexNatLt_irrefl] at h3
    exact absurd h3 (by decide)

theorem dtLt_irrefl (a : PyDateTime) : dtLt a a = false :=
  lexNatLt_irrefl _

theorem dtLt_trans {a b c : PyDateTime} (h1 : dtLt a b = true)
    (h2 : dtLt b c = true) : dtLt a c = true :=
  lexNatLt_trans h1 h2

/-! The folds implementing Python `max`/`min` return an element of the list
that no other element strictly exceeds (resp. strictly undercuts). -/

theorem foldl_maxStep_mem : ∀ (xs : List PyDateTime) (a : PyDateTime),
    xs.foldl maxStep a ∈ a :: xs := by
  intro xs
  induction xs with
  | nil => intro a; simp
  | cons y ys ih =>
    intro a
    simp only [List.foldl_cons]
    have h := ih (maxStep a y)
    unfold maxStep at h ⊢
    by_cases hc : dtLt a y = true
    · rw [if_pos hc] at h ⊢
      rcases List.mem_cons.mp h with h' | h'
      · simp [h']
      · simp [List.mem_cons_of_mem, h']
    · rw [if_neg hc] at h ⊢
      rcases List.mem_cons.mp h with h' | h'
      · simp [h']
      · simp [List.mem_cons_of_mem, h']

theorem foldl_maxStep_bound : ∀ (xs : List PyDateTime) (a : PyDateTime),
    ∀ x ∈ a :: xs, dtLt (xs.foldl maxStep a) x = false := by
  intro xs
  induction xs with
  | nil =>
    intro a x hx
    simp at hx
    simp [hx, dtLt_irrefl]
  | cons y ys ih =>
    intro a x hx
    simp only [List.foldl_cons]
    by_cases hc : dtLt a y = true
    · rw [show maxStep a y = y from if_pos hc]
      rcases List.mem_cons.mp hx with h' | h'
      · subst h'
        have hmy := ih y y (List.mem_cons_self _ _)
        cases hma : dtLt (ys.foldl maxStep y) x with
        | false => rfl
        | true => exact absurd (dtLt_trans hma hc) (by simp [hmy])
      · exact ih y x h'
    · rw [show maxStep a y = a from if_neg hc]
      rcases List.mem_cons.mp hx with h' | h'
      · rw [h']
        exact ih a a (List.mem_cons_self _ _)
      · rcases List.mem_cons.mp h' with h'' | h''
        · subst h''
          have hma := ih a a (List.mem_cons_self _ _)
          cases hmy : dtLt (ys.foldl maxStep a) x with
          | false => rfl
          | true =>
            cases hya : dtLt x a with
            | true => exact absurd (dtLt_trans hmy hya) (by simp [hma])
            | false =>
              have hk : dtFields x = dtFields a :=
                lexNatLt_eq_of_not hya (by simpa [dtLt] using hc)
              have heq : dtLt (ys.foldl maxStep a) x =
                  dtLt (ys.foldl maxStep a) a := by
                unfold dtLt
                rw [hk]
              rw [heq, hma] at hmy
              exact absurd hmy (by decide)
        · exact ih a x (List.mem_cons_of_mem _ h'')

theorem foldl_minStep_mem : ∀ (xs : List PyDateTime) (a : PyDateTime),
    xs.foldl minStep a ∈ a :: xs := by
  intro xs
  induction xs with
  | nil => intro a; simp
  | cons y ys ih =>
    intro a
    simp only [List.foldl_cons]
    have h := ih (minStep a y)
    unfold minStep at h ⊢
    by_cases hc : dtLt y a = true
    · rw [if_pos hc] at h ⊢
      rcases List.mem_cons.mp h with h' | h'
      · simp [h']
      · simp [List.mem_cons_of_mem, h']
    · rw [if_neg hc] at h ⊢
      rcases List.mem_cons.mp h with h' | h'
      · simp [h']
      · simp [List.mem_cons_of_mem, h']

theorem foldl_minStep_bound : ∀ (xs : List PyDateTime) (a : PyDateTime),
    ∀ x ∈ a :: xs, dtLt x (xs.foldl minStep a) = false := by
  intro xs
  induction xs with
  | nil =>
    intro a x hx
    simp at hx
    simp [hx, dtLt_irrefl]
  | cons y ys ih =>
    intro a x hx
    simp only [List.foldl_cons]
    by_cases hc : dtLt y a = true
    · rw [show minStep a y = y from if_pos hc]
      rcases List.mem_cons.mp hx with h' | h'
      · subst h'
        have hmy := ih y y (List.mem_cons_self _ _)
        cases hma : dtLt x (ys.foldl minStep y) with
        | false => rfl
        | true => exact absurd (dtLt_trans hc hma) (by simp [hmy])
      · exact ih y x h'
    · rw [show minStep a y = a from if_neg hc]
      rcases List.mem_cons.mp hx with h' | h'
      · rw [h']
        exact ih a a (List.mem_cons_self _ _)
      · rcases List.mem_cons.mp h' with h'' | h''
        · subst h''
          have hma := ih a a (List.mem_cons_self _ _)
          cases hmy : dtLt x (ys.foldl minStep a) with
          | false => rfl
          | true =>
            cases hya : dtLt a x with
            | true => exact absurd (dtLt_trans hya hmy) (by simp [hma])
            | false =>
              have hk : dtFields x = dtFields a :=
                lexNatLt_eq_of_not (by simpa [dtLt] using hc) hya
              have heq : dtLt x (ys.foldl minStep a) =
                  dtLt a (ys.foldl minStep a) := by
                unfold dtLt
                rw [hk]
              rw [heq, hma] at hmy
              exact absurd hmy (by decide)
        · exact ih a x (List.mem_cons_of_mem _ h'')

theorem pyMax_spec {xs : List PyDateTime} (h : xs ≠ []) :
    ∃ m, pyMax xs = some m ∧ m ∈ xs ∧ ∀ x ∈ xs, dtLt m x = false := by
  cases xs with
  | nil => exact absurd rfl h
  | cons a as =>
    exact ⟨as.foldl maxStep a, rfl, foldl_maxStep_mem as a, foldl_maxStep_bound as a⟩

theorem pyMin_spec {xs : List PyDateTime} (h : xs ≠ []) :
    ∃ m, pyMin xs = some m ∧ m ∈ xs ∧ ∀ x ∈ xs, dtLt x m = false := by
  cases xs with
  | nil => exact absurd rfl h
  | cons a as =>
    exact ⟨as.foldl minStep a, rfl, foldl_minStep_mem as a, foldl_minStep_bound as a⟩

/-! Facts about the Python string order and `sorted()`. -/

theorem strExt {a b : String} (h : a.data = b.data) : a = b :=
  congrArg String.mk h

theorem charToNat_inj {a b : Char} (h : a.toNat = b.toNat) : a = b := by
  have h2 := congrArg Char.ofNat h
  rwa [Char.ofNat_toNat, Char.ofNat_toNat] at h2

theorem strKey_inj {a b : String} (h : strKey a = strKey b) : a = b := by
  apply strExt
  exact List.map_injective_iff.mpr (fun _ _ h' => charToNat_inj h') h

instance : IsTotal String pyLe := ⟨by
  intro a b
  unfold pyLe
  cases hab : strLtB b a with
  | false => exact Or.inl rfl
  | true =>
    refine Or.inr ?_
    unfold strLtB at hab ⊢
    exact lexNatLt_asymm hab⟩

instance : IsTrans String pyLe := ⟨by
  intro a b c hab hbc
  unfold pyLe strLtB at hab hbc ⊢
  cases hca : lexNatLt (strKey c) (strKey a) with
  | false => rfl
  | true =>
    cases hbc2 : lexNatLt (strKey b) (strKey c) with
    | true => exact absurd (lexNatLt_trans hbc2 hca) (by simp [hab])
    | false =>
      have he : strKey c = strKey b := lexNatLt_eq_of_not hbc hbc2
      rw [he] at hca
      exact absurd hca (by simp [hab])⟩

instance : IsAntisymm String pyLe := ⟨by
  intro a b hab hba
  unfold pyLe strLtB at hab hba
  exact strKey_inj (lexNatLt_eq_of_not hba hab)⟩

theorem pySorted_perm_eq {xs ys : List String} (h : xs.Perm ys) :
    pySorted xs = pySorted ys := by
  apply List.eq_of_perm_of_sorted (r := pyLe)
  · exact (List.perm_insertionSort pyLe xs).trans
      (h.trans (List.perm_insertionSort pyLe ys).symm)
  · exact List.sorted_insertionSort pyLe xs
  · exact List.sorted_insertionSort pyLe ys

theorem mem_joinChars : ∀ {xs : List String} {c : Char}, c ∈ joinChars xs →
    c = ',' ∨ c = ' ' ∨ ∃ s ∈ xs, c ∈ s.data := by
  intro xs
  induction xs with
  | nil =>
    intro c h
    simp [joinChars] at h
  | cons s rest ih =>
    intro c h
    cases rest with
    | nil =>
      simp only [joinChars] at h
      exact Or.inr (Or.inr ⟨s, by simp, h⟩)
    | cons t ts =>
      simp only [joinChars] at h
      rcases List.mem_append.mp h with h1 | h2
      · exact Or.inr (Or.inr ⟨s, by simp, h1⟩)
      · rcases List.mem_cons.mp h2 with hc | h3
        · exact Or.inl hc
        · rcases List.mem_cons.mp h3 with hc | h4
          · exact Or.inr (Or.inl hc)
          · rcases ih h4 with h5 | h5 | ⟨u, hu, hcu⟩
            · exact Or.inl h5
            · exact Or.inr (Or.inl h5)
            · exact Or.inr (Or.inr ⟨u, List.mem_cons_of_mem _ hu, hcu⟩)

theorem mem_pySortedSet {xs : List String} {s : String}
    (h : s ∈ pySortedSet xs) : s ∈ xs := by
  unfold pySortedSet pySorted at h
  have h2 := (List.perm_insertionSort pyLe xs.dedup).mem_iff.mp h
  exact List.mem_dedup.mp h2

theorem commaJoin_ne_disabled {xs : List String}
    (hx : ∀ s ∈ xs, '(' ∉ s.data) : commaJoin xs ≠ lookupsDisabled := by
  intro he
  have hd : joinChars xs = lookupsDisabled.data := congrArg String.data he
  have hin : '(' ∈ joinChars xs := by
    rw [hd]
    decide
  rcases mem_joinChars hin with h | h | ⟨s, hs, hc⟩
  · exact absurd h (by decide)
  · exact absurd h (by decide)
  · exact hx s hs hc

theorem digitChar_ne_lparen (n : Nat) : Nat.digitChar n ≠ '(' := by
  match n with
  | 0 | 1 | 2 | 3 | 4 | 5 | 6 | 7 | 8 | 9 | 10 | 11 | 12 | 13 | 14 | 15 =>
    decide
  | n + 16 =>
    unfold Nat.digitChar
    repeat rw [if_neg (by omega)]
    decide

theorem toDigitsCore_mem : ∀ (f b n : Nat) (ds : List Char) (c : Char),
    c ∈ Nat.toDigitsCore b f n ds → c ∈ ds ∨ ∃ m, c = Nat.digitChar m := by
  intro f
  induction f with
  | zero =>
    intro b n ds c h
    simp [Nat.toDigitsCore] at h
    exact Or.inl h
  | succ f ih =>
    intro b n ds c h
    rw [Nat.toDigitsCore] at h
    by_cases h0 : n / b = 0
    · simp only [h0, if_true, reduceIte] at h
      rcases List.mem_cons.mp h with h' | h'
      · exact Or.inr ⟨n % b, h'⟩
      · exact Or.inl h'
    · simp only [h0, if_false, reduceIte] at h
      rcases ih b (n / b) _ c h with h' | h'
      · rcases List.mem_cons.mp h' with h'' | h''
        · exact Or.inr ⟨n % b, h''⟩
        · exact Or.inl h''
      · exact Or.inr h'

theorem lparen_not_mem_repr (n : Nat) : '(' ∉ (Nat.repr n).data := by
  intro h
  have h1 : '(' ∈ Nat.toDigitsCore 10 (n + 1) n [] := by
    simpa [Nat.repr, Nat.toDigits, List.asString] using h
  rcases toDigitsCore_mem _ _ _ _ _ h1 with h3 | ⟨m, hm⟩
  · simp at h3
  · exact digitChar_ne_lparen m hm.symm

theorem lparen_not_mem_mxToken (p : Nat) (e : String) (he : '(' ∉ e.data) :
    '(' ∉ (mxToken p e).data := by
  intro h
  unfold mxToken at h
  rw [String.data_append, String.data_append] at h
  rcases List.mem_append.mp h with h1 | h2
  · rcases List.mem_append.mp h1 with h3 | h4
    · exact lparen_not_mem_repr p h3
    · exact absurd h4 (by decide)
  · unfold stripTrailingDot at h2
    split at h2
    · exact he (List.dropLast_subset _ h2)
    · exact he h2

theorem ipJoin_ne_disabled {as aaaa : List String}
    (hA : ∀ s ∈ as, '(' ∉ s.data) (hAAAA : ∀ s ∈ aaaa, '(' ∉ s.data) :
    ipJoin as aaaa ≠ lookupsDisabled := by
  apply commaJoin_ne_disabled
  intro s hs
  have h := mem_pySortedSet hs
  rcases List.mem_append.mp h with h' | h'
  · exact hA s h'
  · exact hAAAA s h'

theorem mxJoin_ne_disabled {mxs : List (Nat × String)}
    (hMX : ∀ p ∈ mxs, '(' ∉ p.2.data) :
    mxJoin mxs ≠ lookupsDisabled := by
  apply commaJoin_ne_disabled
  intro s hs
  have h := mem_pySortedSet hs
  rcases List.mem_map.mp h with ⟨p, hp, he⟩
  rw [← he]
  exact lparen_not_mem_mxToken p.1 p.2 (hMX p hp)

theorem statusCapture_total : ∀ (cs : List Char), '\n' ∉ cs →
    ∃ g, statusCapture cs = some g := by
  intro cs
  induction cs with
  | nil =>
    intro _
    exact ⟨[], rfl⟩
  | cons c rest ih =>
    intro h
    by_cases hs : statusTail (c :: rest) = true
    · exact ⟨[], by simp [statusCapture, hs]⟩
    · have hc : ¬(c = '\n') := fun e => h (by simp [e])
      obtain ⟨g, hg⟩ := ih (fun hm => h (List.mem_cons_of_mem _ hm))
      exact ⟨c :: g, by simp [statusCapture, hs, hc, hg]⟩

theorem cleanDateField_list {red : List PyDateTime → Option PyDateTime}
    {vs : List RawDate} {ds : List PyDateTime}
    (hvs : cleanDates vs = some ds) :
    cleanDateField red (.list vs) = red ds := by
  simp [cleanDateField, hvs]

theorem cleanDateField_scalar {red : List PyDateTime → Option PyDateTime}
    {v : RawDate} {d : PyDateTime} (hv : cleanDateValue v = some d) :
    cleanDateField red (.scalar v) = red [d] := by
  simp [cleanDateField, cleanDates, hv]

theorem cleanDates_some_ne_nil {vs : List RawDate} {ds : List PyDateTime}
    (hvs : cleanDates vs = some ds) (hne : vs ≠ []) : ds ≠ [] := by
  cases vs with
  | nil => exact absurd rfl hne
  | cons v vt =>
    rw [cleanDates] at hvs
    cases hv : cleanDateValue v with
    | none => simp [hv] at hvs
    | some d =>
      cases hvt : cleanDates vt with
      | none => simp [hv, hvt] at hvs
      | some ds' =>
        simp [hv, hvt] at hvs
        subst hvs
        simp

/-! Facts about the diff engine and the store-state write path. -/

theorem diffRecord_self (r : CanonicalRecord) : diffRecord r r = [] := by
  rw [diffRecord, List.filterMap_eq_nil_iff]
  intro fe _
  simp

theorem filterMap_ite {α β : Type} (p : α → Prop) [DecidablePred p]
    (g : α → β) (l : List α) :
    (l.filterMap fun a => if p a then some (g a) else none) =
      (l.filter fun a => decide (p a)).map g := by
  induction l with
  | nil => rfl
  | cons a t ih => by_cases h : p a <;> simp [h, ih]

theorem diffRecord_eq_filter (prev cur : CanonicalRecord) :
    diffRecord prev cur =
      ((datapoints.filter fun fe => decide (prev.get fe.1 ≠ cur.get fe.1)).map
        fun fe => (fe.2, prev.get fe.1, cur.get fe.1)) :=
  filterMap_ite _ _ _

theorem diffRecord_ne_nil_iff (prev cur : CanonicalRecord) :
    diffRecord prev cur ≠ [] ↔
      ∃ fe ∈ datapoints, prev.get fe.1 ≠ cur.get fe.1 := by
  constructor
  · intro h
    by_contra hc
    push_neg at hc
    apply h
    rw [diffRecord, List.filterMap_eq_nil_iff]
    intro fe hfe
    simp [hc fe hfe]
  · rintro ⟨fe, hfe, hne⟩ h
    rw [diffRecord, List.filterMap_eq_nil_iff] at h
    have h2 := h fe hfe
    rw [if_pos hne] at h2
    simp at h2

theorem insertChangedRows_spec (sid : Nat) :
    ∀ (l : List (String × Value × Value)) (st : Store),
      ∃ rows,
        (insertChangedRows st sid l).changed = st.changed ++ rows ∧
        rows.map changedProj = l ∧
        (∀ c ∈ rows, c.state = sid) ∧
        (insertChangedRows st sid l).states = st.states ∧
        (insertChangedRows st sid l).domains = st.domains := by
  intro l
  induction l with
  | nil =>
    intro st
    exact ⟨[], by simp [insertChangedRows], rfl, by simp, rfl, rfl⟩
  | cons d rest ih =>
    intro st
    obtain ⟨rows, h1, h2, h3, h4, h5⟩ :=
      ih { st with
            changed := st.changed ++ [⟨st.nextChangedId, sid, d.1, d.2.1, d.2.2⟩],
            nextChangedId := st.nextChangedId + 1 }
    refine ⟨⟨st.nextChangedId, sid, d.1, d.2.1, d.2.2⟩ :: rows, ?_, ?_, ?_, ?_, ?_⟩
    · rw [insertChangedRows, h1]
      simp
    · rw [List.map_cons, h2]
      simp [changedProj]
    · intro c hc
      rcases List.mem_cons.mp hc with h' | h'
      · rw [h']
      · exact h3 c h'
    · rw [insertChangedRows, h4]
    · rw [insertChangedRows, h5]

theorem commitState_false (st : Store) (dom cd : String) (p : CanonicalRecord)
    (dd : Bool) (now : Nat) (diffs : List (String × Value × Value)) :
    commitState st dom cd p dd now false diffs =
      st.updateDomain dom fun r =>
        { r with cur_raw_text := some cd, last_checked := some now,
                 do_dns := dd } := rfl

theorem commitState_true_spec (st : Store) (dom cd : String)
    (p : CanonicalRecord) (dd : Bool) (now : Nat)
    (diffs : List (String × Value × Value)) :
    ∃ rows,
      (commitState st dom cd p dd now true diffs).states =
        st.states ++ [⟨st.nextStateId, dom, now, cd, p⟩] ∧
      (commitState st dom cd p dd now true diffs).changed =
        st.changed ++ rows ∧
      rows.map changedProj = diffs ∧
      (∀ c ∈ rows, c.state = st.nextStateId) := by
  obtain ⟨rows, h1, h2, h3, h4, h5⟩ :=
    insertChangedRows_spec st.nextStateId diffs
      (let st1 := st.updateDomain dom fun r =>
        { r with cur_raw_text := some cd, last_checked := some now,
                 do_dns := dd }
      ({ st1 with
          states := st1.states ++
            [({ id := st1.nextStateId, domain := dom, check_time := now,
                raw_text := cd, record := p } : StateRow)],
          nextStateId := st1.nextStateId + 1 }).updateDomain dom
        fun r => { r with last_state := some st1.nextStateId })
  exact ⟨rows, h4, h1, h2, h3⟩

theorem storeState_initial {st : Store} {dom : String}
    (h : (st.domains dom).bind (fun r => r.last_state) = none)
    (cd : String) (p : CanonicalRecord) (dd : Bool) (now : Nat) :
    ∃ st', storeState st dom cd p dd now = some (st', true) ∧
      st'.states = st.states ++ [⟨st.nextStateId, dom, now, cd, p⟩] ∧
      st'.changed = st.changed := by
  unfold storeState
  rw [h]
  obtain ⟨rows, h1, h2, h3, _⟩ := commitState_true_spec st dom cd p dd now []
  have hr : rows = [] := List.map_eq_nil_iff.mp h3
  exact ⟨_, rfl, h1, by simp [h2, hr]⟩

theorem storeState_with_prev {st : Store} {dom : String} {row : DomainRow}
    {sid : Nat} {prev : StateRow}
    (h1 : st.domains dom = some row) (h2 : row.last_state = some sid)
    (h3 : findState st sid = some prev)
    (cd : String) (p : CanonicalRecord) (dd : Bool) (now : Nat) :
    storeState st dom cd p dd now =
      some (commitState st dom cd p dd now (!(diffRecord prev.record p).isEmpty)
          (diffRecord prev.record p),
        !(diffRecord prev.record p).isEmpty) := by
  unfold storeState
  have hb : ((st.domains dom).bind fun r => r.last_state) = some sid := by
    rw [h1]
    exact h2
  simp only [hb, h3]

theorem whoisAttempts_all_sentinel {responses : Nat → String}
    (hall : ∀ i, containsSentinel (responses i) = true) :
    ∀ (r i : Nat), 0 < r →
      ∃ d, whoisAttempts responses i r = some d ∧ containsSentinel d = true := by
  intro r
  induction r with
  | zero => intro i h; exact absurd h (by simp)
  | succ r ih =>
    intro i _
    cases r with
    | zero => exact ⟨responses i, rfl, hall i⟩
    | succ r' =>
      obtain ⟨d, hd, hds⟩ := ih (i + 1) (Nat.succ_pos _)
      exact ⟨d, by simp [whoisAttempts, hall i, hd], hds⟩

theorem mem_stateIds {st : Store} {dom : String} {s : StateRow}
    (hs : s ∈ st.states) (hd : s.domain = dom) :
    s.id ∈ (getStateIds st dom).map (fun p => p.1) := by
  unfold getStateIds
  have h1 : (s.id, s.check_time) ∈
      (st.states.filter fun t => t.domain == dom).map
        fun t => (t.id, t.check_time) :=
    List.mem_map_of_mem _ (List.mem_filter.mpr ⟨hs, by simp [hd]⟩)
  have h2 := (List.perm_insertionSort
      (α := Nat × Nat) (fun a b => a.2 ≤ b.2)
      ((st.states.filter fun t => t.domain == dom).map
        fun t => (t.id, t.check_time))).mem_iff.mpr h1
  exact List.mem_map_of_mem _ h2

/-! The ten claims. -/

/-- C1, counterexample: the source joins a sorted `emails` list without
deduplicating it, so two lists holding the same set of addresses (one with a
duplicate) normalize to different canonical strings, and the duplicate
survives in the output. -/
theorem c1_emails_dedup_counterexample :
    cleanEmails (.list ["a@example.com", "a@example.com"]) ≠
      cleanEmails (.list ["a@example.com"]) ∧
    cleanEmails (.list ["a@example.com", "a@example.com"]) =
      .str "a@example.com, a@example.com" :=
  ⟨by decide, by decide⟩

/-- C1, amended: for every raw lookup whose emails field is a list,
normalization produces the lexicographically sorted, comma-joined form of
that list with duplicates preserved (so two lists containing the same
multiset of emails normalize to the same canonical string); a scalar emails
value passes through unchanged. -/
theorem c1_emails_normalization (xs ys : List String) (v : Value)
    (h : xs.Perm ys) :
    cleanEmails (.list xs) = .str (commaJoin (pySorted xs)) ∧
    cleanEmails (.list xs) = cleanEmails (.list ys) ∧
    cleanEmails (.scalar v) = v := by
  refine ⟨rfl, ?_, rfl⟩
  simp only [cleanEmails]
  rw [pySorted_perm_eq h]

/-- C1, witness: the amended statement at a concrete permutation pair. -/
theorem c1_emails_normalization_witness :
    (["b@x", "a@x", "a@x"] : List String).Perm ["a@x", "b@x", "a@x"] ∧
    (cleanEmails (.list ["b@x", "a@x", "a@x"]) =
        .str (commaJoin (pySorted ["b@x", "a@x", "a@x"])) ∧
      cleanEmails (.list ["b@x", "a@x", "a@x"]) =
        cleanEmails (.list ["a@x", "b@x", "a@x"]) ∧
      cleanEmails (.scalar .none) = .none) :=
  ⟨List.Perm.swap "a@x" "b@x" ["a@x"],
    c1_emails_normalization _ _ _ (List.Perm.swap "a@x" "b@x" ["a@x"])⟩

/-- C2, counterexample: two timezone-aware datetimes denoting the same
instant (12:00 UTC+0 and 13:00 UTC+1) normalize to different values, and
the cleaned aware value keeps its own civil fields rather than the UTC
civil time the claim prescribes - the source drops the offset without
converting. -/
theorem c2_datetime_utc_counterexample :
    instantSeconds ⟨2020, 1, 1, 12, 0, 0, 0, some 0⟩ =
      instantSeconds ⟨2020, 1, 1, 13, 0, 0, 0, some 60⟩ ∧
    cleanDatetime ⟨2020, 1, 1, 12, 0, 0, 0, some 0⟩ ≠
      cleanDatetime ⟨2020, 1, 1, 13, 0, 0, 0, some 60⟩ ∧
    cleanDatetime ⟨2020, 1, 1, 13, 0, 0, 0, some 60⟩ ≠
      ⟨2020, 1, 1, 12, 0, 0, 0, none⟩ :=
  ⟨by decide, by decide, by decide⟩

/-- C2, amended: normalization truncates every datetime to whole seconds and
drops any timezone offset while keeping the civil year..second fields exactly
as written; no conversion to UTC happens, so equal instants written in
different offsets need not normalize to the same canonical timestamp. -/
theorem c2_datetime_clean (d : PyDateTime) :
    cleanDatetime d =
      ⟨d.year, d.month, d.day, d.hour, d.minute, d.second, 0, none⟩ := by
  rcases d with ⟨y, mo, dy, h, mi, s, us, tz⟩
  cases tz <;> rfl

/-- C7: on a non-empty list of valid date values the cleaned list reduces to
a single element of itself - one that no element strictly exceeds under
`pyMax` (used for `updated_date`) and one that no element strictly undercuts
under `pyMin` (used for `creation_date` and `expiration_date`); a valid
scalar is treated as a one-element list and reduces to its own cleaned
value under either reducer. -/
theorem c7_date_reduction (vs : List RawDate) (ds : List PyDateTime)
    (v : RawDate) (d : PyDateTime)
    (hvs : cleanDates vs = some ds) (hne : vs ≠ [])
    (hv : cleanDateValue v = some d) :
    (∃ m, cleanDateField pyMax (.list vs) = some m ∧ m ∈ ds ∧
        ∀ x ∈ ds, dtLt m x = false) ∧
    (∃ m, cleanDateField pyMin (.list vs) = some m ∧ m ∈ ds ∧
        ∀ x ∈ ds, dtLt x m = false) ∧
    cleanDateField pyMax (.scalar v) = some d ∧
    cleanDateField pyMin (.scalar v) = some d := by
  have hds := cleanDates_some_ne_nil hvs hne
  obtain ⟨m1, hm1, hmem1, hb1⟩ := pyMax_spec hds
  obtain ⟨m2, hm2, hmem2, hb2⟩ := pyMin_spec hds
  refine ⟨⟨m1, ?_, hmem1, hb1⟩, ⟨m2, ?_, hmem2, hb2⟩, ?_, ?_⟩
  · rw [cleanDateField_list hvs, hm1]
  · rw [cleanDateField_list hvs, hm2]
  · rw [cleanDateField_scalar hv]
    rfl
  · rw [cleanDateField_scalar hv]
    rfl

/-- C7, witness: the reduction at a concrete two-element date list and a
concrete scalar date string. -/
theorem c7_date_reduction_witness :
    cleanDates [.dt ⟨2020, 5, 1, 0, 0, 0, 500, none⟩,
        .dt ⟨2021, 5, 1, 0, 0, 0, 0, none⟩] =
      some [⟨2020, 5, 1, 0, 0, 0, 0, none⟩, ⟨2021, 5, 1, 0, 0, 0, 0, none⟩] ∧
    ([.dt ⟨2020, 5, 1, 0, 0, 0, 500, none⟩,
        .dt ⟨2021, 5, 1, 0, 0, 0, 0, none⟩] : List RawDate) ≠ [] ∧
    cleanDateValue (.str "2020-01-02T03:04:05") =
      some ⟨2020, 1, 2, 3, 4, 5, 0, none⟩ ∧
    ((∃ m, cleanDateField pyMax
          (.list [.dt ⟨2020, 5, 1, 0, 0, 0, 500, none⟩,
            .dt ⟨2021, 5, 1, 0, 0, 0, 0, none⟩]) = some m ∧
        m ∈ [⟨2020, 5, 1, 0, 0, 0, 0, none⟩, ⟨2021, 5, 1, 0, 0, 0, 0, none⟩] ∧
        ∀ x ∈ ([⟨2020, 5, 1, 0, 0, 0, 0, none⟩,
          ⟨2021, 5, 1, 0, 0, 0, 0, none⟩] : List PyDateTime),
          dtLt m x = false) ∧
      (∃ m, cleanDateField pyMin
          (.list [.dt ⟨2020, 5, 1, 0, 0, 0, 500, none⟩,
            .dt ⟨2021, 5, 1, 0, 0, 0, 0, none⟩]) = some m ∧
        m ∈ [⟨2020, 5, 1, 0, 0, 0, 0, none⟩, ⟨2021, 5, 1, 0, 0, 0, 0, none⟩] ∧
        ∀ x ∈ ([⟨2020, 5, 1, 0, 0, 0, 0, none⟩,
          ⟨2021, 5, 1, 0, 0, 0, 0, none⟩] : List PyDateTime),
          dtLt x m = false) ∧
      cleanDateField pyMax (.scalar (.str "2020-01-02T03:04:05")) =
        some ⟨2020, 1, 2, 3, 4, 5, 0, none⟩ ∧
      cleanDateField pyMin (.scalar (.str "2020-01-02T03:04:05")) =
        some ⟨2020, 1, 2, 3, 4, 5, 0, none⟩) :=
  ⟨by decide, by decide, by decide,
    c7_date_reduction _ _ _ _ (by decide) (by decide) (by decide)⟩

/-- C10: the status-stripping regex matches every status token without a
newline - the lazy `.*?` status group always finds a capture after which the
optional URL group and the end anchor match - so `cleanStatusToken` always
takes the match branch and the raw-token fallback is unreachable on such
inputs. -/
theorem c10_status_regex_total (s : String) (h : '\n' ∉ s.data) :
    ∃ g, statusCapture s.data = some g ∧ cleanStatusToken s = String.mk g := by
  obtain ⟨g, hg⟩ := statusCapture_total s.data h
  exact ⟨g, hg, by simp [cleanStatusToken, hg]⟩

/-- C10, witness: the totality statement at a concrete status token carrying
a parenthesized URL. -/
theorem c10_status_regex_total_witness :
    ('\n' ∉ ("ok (http://example.com/x)" : String).data) ∧
    ∃ g, statusCapture ("ok (http://example.com/x)" : String).data = some g ∧
      cleanStatusToken "ok (http://example.com/x)" = String.mk g :=
  ⟨by decide, c10_status_regex_total "ok (http://example.com/x)" (by decide)⟩

/-- C3: when every whois attempt up to `maxRetries` returns the
transient-communication sentinel, `checkDomain` aborts the domain's check
returning `true` ("treat as changed") and mutates none of the tracked
state: no `state` or `changed` row is written and every domain row's
`cur_raw_text` and `last_checked` are left untouched (a brand-new domain's
row is inserted with both fields NULL). -/
theorem c3_transient_failure (st : Store) (dnsBehavior : DNSBehavior)
    (maxRetries : Nat) (env : CheckEnv) (domain : String)
    (hpos : 0 < maxRetries)
    (hall : ∀ i, containsSentinel (env.responses i) = true) :
    ∃ st1, checkDomain st dnsBehavior maxRetries env domain none =
        some (st1, true) ∧
      st1.states = st.states ∧
      st1.changed = st.changed ∧
      (∀ d, (st1.domains d).bind (fun r => r.cur_raw_text) =
          (st.domains d).bind fun r => r.cur_raw_text) ∧
      (∀ d, (st1.domains d).bind (fun r => r.last_checked) =
          (st.domains d).bind fun r => r.last_checked) := by
  obtain ⟨data, hdata, hsent⟩ := whoisAttempts_all_sentinel hall maxRetries 0 hpos
  unfold checkDomain
  cases hdom : st.domains domain with
  | none =>
    refine ⟨{ st with domains := fun x =>
        if x = domain then some (newDomainRow dnsBehavior)
        else st.domains x }, ?_, rfl, rfl, ?_, ?_⟩
    · simp only [hdom]
      rw [hdata]
      simp [hsent]
    · intro d
      by_cases hx : d = domain
      · subst hx
        simp [hdom, newDomainRow]
      · simp [hx]
    · intro d
      by_cases hx : d = domain
      · subst hx
        simp [hdom, newDomainRow]
      · simp [hx]
  | some row =>
    refine ⟨st, ?_, rfl, rfl, fun d => rfl, fun d => rfl⟩
    simp only [hdom]
    cases dnsBehavior <;> (rw [hdata]; simp [hsent])

/-- C3, witness: the abort at a concrete always-failing transport on an
empty store. -/
theorem c3_transient_failure_witness :
    (0 < 2) ∧ (∀ i, containsSentinel (envFail.responses i) = true) ∧
    ∃ st1, checkDomain stEmpty .domain_default 2 envFail "example.com" none =
        some (st1, true) ∧
      st1.states = stEmpty.states ∧
      st1.changed = stEmpty.changed ∧
      (∀ d, (st1.domains d).bind (fun r => r.cur_raw_text) =
          (stEmpty.domains d).bind fun r => r.cur_raw_text) ∧
      (∀ d, (st1.domains d).bind (fun r => r.last_checked) =
          (stEmpty.domains d).bind fun r => r.last_checked) :=
  ⟨by decide, fun _ => rfl,
    c3_transient_failure stEmpty .domain_default 2 envFail "example.com"
      (by decide) (fun _ => rfl)⟩

/-- C4: with a prior recorded state equal field-by-field to the new
canonical record, `_store_state` returns false, writes no `state` row and no
`changed` row, keeps `domain.last_state` pointing at the old state, and
still rewrites `cur_raw_text`, `last_checked` and `do_dns` on the domain
row. -/
theorem c4_no_change_round_trip (st : Store) (dom : String) (row : DomainRow)
    (sid : Nat) (prev : StateRow) (cd : String) (p : CanonicalRecord)
    (dd : Bool) (now : Nat)
    (h1 : st.domains dom = some row) (h2 : row.last_state = some sid)
    (h3 : findState st sid = some prev) (h4 : prev.record = p) :
    ∃ st', storeState st dom cd p dd now = some (st', false) ∧
      st'.states = st.states ∧
      st'.changed = st.changed ∧
      st'.domains dom = some { row with cur_raw_text := some cd, last_checked := some now, do_dns := dd } ∧
      (st'.domains dom).bind (fun r => r.last_state) = some sid := by
  have hd : diffRecord prev.record p = [] := by
    rw [h4]
    exact diffRecord_self p
  have hs := storeState_with_prev h1 h2 h3 cd p dd now
  rw [hd] at hs
  simp only [List.isEmpty_nil, Bool.not_true] at hs
  rw [commitState_false] at hs
  refine ⟨_, hs, rfl, rfl, ?_, ?_⟩
  · simp [Store.updateDomain, h1]
  · simp [Store.updateDomain, h1, h2]

/-- C4, witness: the no-change round trip on a concrete one-domain store. -/
theorem c4_no_change_round_trip_witness :
    ∃ st', storeState stExample "example.com" "new raw" recA true 9 =
        some (st', false) ∧
      st'.states = stExample.states ∧
      st'.changed = stExample.changed ∧
      st'.domains "example.com" = some { rowExample with cur_raw_text := some "new raw", last_checked := some 9, do_dns := true } ∧
      (st'.domains "example.com").bind (fun r => r.last_state) = some 1 :=
  c4_no_change_round_trip stExample "example.com" rowExample 1 stateExample
    "new raw" recA true 9 (by decide) (by decide) (by decide) (by decide)

/-- C5: with no prior recorded state (missing domain row or NULL
`last_state`), `_store_state` always inserts exactly one new `state` row
carrying the canonical record as given, returns true, and inserts no
`changed` row - whatever the record's content. -/
theorem c5_initial_observation (st : Store) (dom cd : String)
    (p : CanonicalRecord) (dd : Bool) (now : Nat)
    (h : (st.domains dom).bind (fun r => r.last_state) = none) :
    ∃ st', storeState st dom cd p dd now = some (st', true) ∧
      st'.states = st.states ++ [⟨st.nextStateId, dom, now, cd, p⟩] ∧
      st'.changed = st.changed :=
  storeState_initial h cd p dd now

/-- C5, witness: the initial observation on the empty store. -/
theorem c5_initial_observation_witness :
    ∃ st', storeState stEmpty "example.com" "raw" recA true 3 =
        some (st', true) ∧
      st'.states = stEmpty.states ++
        [⟨stEmpty.nextStateId, "example.com", 3, "raw", recA⟩] ∧
      st'.changed = stEmpty.changed :=
  c5_initial_observation stEmpty "example.com" "raw" recA true 3 (by decide)

/-- C6: with a previous state, `_store_state` compares exactly the eighteen
fields of `datapoints` in declared order with exact equality: it stores a
new state if and only if some tracked field differs, and the `changed` rows
it appends are, in `datapoints` order, the label/old/new triples of exactly
the differing fields, all attached to the fresh state id. -/
theorem c6_diff_engine (st : Store) (dom : String) (row : DomainRow)
    (sid : Nat) (prev : StateRow) (cd : String) (p : CanonicalRecord)
    (dd : Bool) (now : Nat)
    (h1 : st.domains dom = some row) (h2 : row.last_state = some sid)
    (h3 : findState st sid = some prev) :
    ∃ st' b, storeState st dom cd p dd now = some (st', b) ∧
      (b = true ↔ ∃ fe ∈ datapoints, prev.record.get fe.1 ≠ p.get fe.1) ∧
      st'.changed.map changedProj =
        st.changed.map changedProj ++
          ((datapoints.filter fun fe =>
              decide (prev.record.get fe.1 ≠ p.get fe.1)).map
            fun fe => (fe.2, prev.record.get fe.1, p.get fe.1)) ∧
      ∀ c ∈ st'.changed.drop st.changed.length, c.state = st.nextStateId := by
  have hs := storeState_with_prev h1 h2 h3 cd p dd now
  cases hflag : (diffRecord prev.record p).isEmpty with
  | true =>
    have hnil : diffRecord prev.record p = [] := by
      cases hl : diffRecord prev.record p with
      | nil => rfl
      | cons a l =>
        rw [hl] at hflag
        exact absurd hflag (by simp)
    simp only [hflag, Bool.not_true] at hs
    rw [hnil, commitState_false] at hs
    refine ⟨_, false, hs, ?_, ?_, ?_⟩
    · refine ⟨fun hfalse => absurd hfalse (by decide), fun hex => ?_⟩
      exact absurd hnil ((diffRecord_ne_nil_iff _ _).mpr hex)
    · rw [← diffRecord_eq_filter, hnil]
      simp [Store.updateDomain]
    · simp [Store.updateDomain, List.drop_length]
  | false =>
    have hne : diffRecord prev.record p ≠ [] := by
      intro h0
      rw [h0] at hflag
      exact absurd hflag (by decide)
    simp only [hflag, Bool.not_false] at hs
    obtain ⟨rows, hst, hch, hmap, hstate⟩ :=
      commitState_true_spec st dom cd p dd now (diffRecord prev.record p)
    refine ⟨_, true, hs, ?_, ?_, ?_⟩
    · exact ⟨fun _ => (diffRecord_ne_nil_iff _ _).mp hne, fun _ => rfl⟩
    · rw [hch, List.map_append, hmap, diffRecord_eq_filter]
    · rw [hch, List.drop_left]
      exact hstate

/-- C6, witness: the diff engine at a concrete store whose new record
differs from the previous state in the registrar field only. -/
theorem c6_diff_engine_witness :
    ∃ st' b, storeState stExample "example.com" "new raw" recB true 9 =
        some (st', b) ∧
      (b = true ↔ ∃ fe ∈ datapoints,
        stateExample.record.get fe.1 ≠ recB.get fe.1) ∧
      st'.changed.map changedProj =
        stExample.changed.map changedProj ++
          ((datapoints.filter fun fe =>
              decide (stateExample.record.get fe.1 ≠ recB.get fe.1)).map
            fun fe => (fe.2, stateExample.record.get fe.1, recB.get fe.1)) ∧
      ∀ c ∈ st'.changed.drop stExample.changed.length,
        c.state = stExample.nextStateId :=
  c6_diff_engine stExample "example.com" rowExample 1 stateExample
    "new raw" recB true 9 (by decide) (by decide) (by decide)

/-- C8: purging a stored domain removes its domain row, every one of its
`state` rows, and every `changed` row attached to any of its states, and a
subsequent `_store_state` for the domain behaves as a first observation
(one new state, no `changed` rows, result true). -/
theorem c8_purge_completeness (st : Store) (dom : String) (row : DomainRow)
    (h : st.domains dom = some row) :
    ∃ st', purgeDomain st dom = some st' ∧
      st'.domains dom = none ∧
      (∀ s ∈ st'.states, s.domain ≠ dom) ∧
      (∀ c ∈ st'.changed, ∀ s ∈ st.states, s.domain = dom → c.state ≠ s.id) ∧
      ∀ cd p dd now, ∃ st2, storeState st' dom cd p dd now = some (st2, true) ∧
        st2.states = st'.states ++ [⟨st'.nextStateId, dom, now, cd, p⟩] ∧
        st2.changed = st'.changed := by
  unfold purgeDomain
  rw [h]
  refine ⟨_, rfl, ?_, ?_, ?_, ?_⟩
  · simp [Store.updateDomain]
  · intro s hs hd
    obtain ⟨hmem, hpred⟩ := List.mem_filter.mp hs
    rw [Bool.not_eq_true'] at hpred
    have hmem' : s ∈ st.states := hmem
    exact of_decide_eq_false hpred (mem_stateIds hmem' hd)
  · intro c hc s hsmem hsdom he
    obtain ⟨hcm, hpred⟩ := List.mem_filter.mp hc
    rw [Bool.not_eq_true'] at hpred
    apply of_decide_eq_false hpred
    rw [he]
    exact mem_stateIds hsmem hsdom
  · intro cd p dd now
    apply storeState_initial
    simp [Store.updateDomain]

/-- C8, witness: the purge at the concrete one-domain store. -/
theorem c8_purge_completeness_witness :
    ∃ st', purgeDomain stExample "example.com" = some st' ∧
      st'.domains "example.com" = none ∧
      (∀ s ∈ st'.states, s.domain ≠ "example.com") ∧
      (∀ c ∈ st'.changed, ∀ s ∈ stExample.states,
        s.domain = "example.com" → c.state ≠ s.id) ∧
      ∀ cd p dd now, ∃ st2,
        storeState st' "example.com" cd p dd now = some (st2, true) ∧
        st2.states = st'.states ++ [⟨st'.nextStateId, "example.com", now, cd, p⟩] ∧
        st2.changed = st'.changed :=
  c8_purge_completeness stExample "example.com" rowExample (by decide)

/-- C9: skipping DNS writes the fixed disabled sentinel into both `ip` and
`mx`; the sentinel differs from every real resolver rendering - including
the empty answer set, which renders as the empty string - as long as no
answer contains a cross-signal left parenthesis; hence a record whose prior
state holds the sentinel and whose next check injects real DNS data always
yields an `ip` diff entry. -/
theorem c9_dns_sentinel (pre : PreRecord) (dns : DnsAnswers)
    (prev : CanonicalRecord)
    (hA : ∀ s ∈ dns.a, '(' ∉ s.data)
    (hAAAA : ∀ s ∈ dns.aaaa, '(' ∉ s.data)
    (hMX : ∀ q ∈ dns.mx, '(' ∉ q.2.data)
    (hprev : prev.ip = .str lookupsDisabled) :
    (injectDnsPlaceholder pre).ip = .str lookupsDisabled ∧
    (injectDnsPlaceholder pre).mx = .str lookupsDisabled ∧
    ipJoin dns.a dns.aaaa ≠ lookupsDisabled ∧
    mxJoin dns.mx ≠ lookupsDisabled ∧
    ("IP Address", prev.ip, (injectDnsLookups dns pre).ip) ∈
      diffRecord prev (injectDnsLookups dns pre) := by
  have hip := ipJoin_ne_disabled hA hAAAA
  have hmx := mxJoin_ne_disabled hMX
  refine ⟨rfl, rfl, hip, hmx, ?_⟩
  rw [diffRecord]
  apply List.mem_filterMap.mpr
  refine ⟨(Field.ip, "IP Address"), by decide, ?_⟩
  have hne : prev.get Field.ip ≠ (injectDnsLookups dns pre).get Field.ip := by
    show prev.ip ≠ Value.str (ipJoin dns.a dns.aaaa)
    rw [hprev]
    intro heq
    injection heq with h'
    exact hip h'.symm
  rw [if_pos hne]
  rfl

/-- C9, witness: the sentinel transition at concrete resolver answers. -/
theorem c9_dns_sentinel_witness :
    (∀ s ∈ dnsExample.a, '(' ∉ s.data) ∧
    (∀ s ∈ dnsExample.aaaa, '(' ∉ s.data) ∧
    (∀ q ∈ dnsExample.mx, '(' ∉ q.2.data) ∧
    recDisabled.ip = .str lookupsDisabled ∧
    ((injectDnsPlaceholder preExample).ip = .str lookupsDisabled ∧
      (injectDnsPlaceholder preExample).mx = .str lookupsDisabled ∧
      ipJoin dnsExample.a dnsExample.aaaa ≠ lookupsDisabled ∧
      mxJoin dnsExample.mx ≠ lookupsDisabled ∧
      ("IP Address", recDisabled.ip, (injectDnsLookups dnsExample preExample).ip) ∈
        diffRecord recDisabled (injectDnsLookups dnsExample preExample)) :=
  ⟨by decide, by decide, by decide, by decide,
    c9_dns_sentinel preExample dnsExample recDisabled (by decide) (by decide)
      (by decide) (by decide)⟩

end WhoisHistory
